import Mathlib

/-!
Shallow embedding of the `json_parser` repository (src/lib.rs, src/tokenizer.rs,
src/parser.rs) and proofs about the frozen claims.

Modelling conventions:
* Rust `char` is Lean `Char`; Rust `String` / `&str` is `List Char`.
* Rust `f64` number payloads are modelled as exact rationals (`ℚ`); the standard
  library float parser called by `tokenize_float` is modelled (from the spec) as the
  exact decimal value of the accepted numeral shapes.
* The tokenizer's `(chars: &[char], index: &mut usize)` pair is embedded in
  suffix-passing style: the state is the remaining suffix `chars.drop index`,
  `chars[*index]` with the index in bounds reads the head of the suffix, and
  `chars[*index]` out of bounds — a Rust panic — is an explicit `panic` outcome.
  The `*index -= 1` at the end of a sub-scanner cancels against the `index += 1`
  of the outer `tokenize` loop, so a sub-scanner simply returns the unconsumed
  suffix.
* The parser keeps the explicit cursor (`tokens: &[Token], index: &mut usize`):
  each function takes the index and returns the value paired with the new index.
  `tokens[*index]` out of bounds is again an explicit `panic` outcome.
* The mutually recursive parser loops are defined with a fuel parameter (a pure
  termination device); running out of fuel is a fourth outcome `outOfFuel`,
  distinct from `panic` and from the program's own errors.  Top-level entry
  points pass fuel `2 * tokens.length + 2`, which is enough for every run that
  does not already end in a panic or an error.
* Rust `HashMap<String, Value>` is modelled as an association list with
  insert-overwrite semantics (`insertEntry`).
-/

namespace Json

/-- Token type, from `src/tokenizer.rs` (`enum Token`). -/
inductive Token where
  | leftBrace
  | rightBrace
  | leftBracket
  | rightBracket
  | comma
  | colon
  | null
  | false
  | true
  | number (q : ℚ)
  | string (s : List Char)
  deriving DecidableEq, Repr

/-- Tokenize-stage error type, from `src/tokenizer.rs` (`enum TokenizeError`).
`ParseFloatError` of the standard library is opaque here. -/
inductive ParseFloatError where
  | invalid
  deriving DecidableEq, Repr

inductive TokenizeError where
  | unfinishedLiteralValue
  | parseNumberError (e : ParseFloatError)
  | unclosedQuotes
  | charNotRecognized (c : Char)
  | unexpectedEof
  deriving DecidableEq, Repr

/-- Parse-stage error type, from `src/parser.rs` (`enum TokenParseError`). -/
inductive TokenParseError where
  | unfinishedEscape
  | invalidHexValue
  | invalidCodePointValue
  | expectedValue
  | expectedProperty
  | expectedComma
  | expectedColon
  | trailingComma
  deriving DecidableEq, Repr

/-- Value type, from `src/lib.rs` (`enum Value`).  Objects are association lists
(modelling `HashMap<String, Value>` with insert-overwrite). -/
inductive Value where
  | null
  | boolean (b : Bool)
  | string (s : List Char)
  | number (q : ℚ)
  | array (vs : List Value)
  | object (entries : List (List Char × Value))

/-- Outcome of running an embedded Rust function: a normal `Ok`, a normal `Err`,
a Rust panic (out-of-bounds slice indexing), or exhaustion of the fuel used to
define the recursion (never reachable with the fuel the entry points pass). -/
inductive Res (ε α : Type) where
  | ok (a : α)
  | err (e : ε)
  | panic
  | outOfFuel

/-- Top-level error type, from `src/lib.rs` (`enum ParseError`). -/
inductive ParseError where
  | tokenizeError (e : TokenizeError)
  | parseError (e : TokenParseError)

/-! ## Tokenizer (src/tokenizer.rs) -/

/-- Rust `char::is_ascii_whitespace` (space, horizontal tab, newline,
form feed 0x0C, carriage return). -/
def isAsciiWhitespace (c : Char) : Bool :=
  c = ' ' || c = '\t' || c = '\n' || c = Char.ofNat 12 || c = '\r'

/-- Rust `char::is_ascii_digit`. -/
def isDigitChar (c : Char) : Bool :=
  '0' ≤ c && c ≤ '9'

/-- The inner `for` loop of `tokenize_literal` (src/tokenizer.rs lines 112-117):
compare the expected literal characters one at a time against the input.
`chars[*index]` beyond the end of the input is a panic. -/
def literalLoop : List Char → List Char → Res TokenizeError (List Char)
  | [], rest => .ok rest
  | _ :: _, [] => .panic
  | e :: es, c :: cs =>
    if e = c then literalLoop es cs else .err .unfinishedLiteralValue

/-- `tokenize_literal` (src/tokenizer.rs lines 106-121): on success the index is
left on the literal's last character; the outer loop's `index += 1` then moves
past it, so in suffix style a success returns the suffix after the literal. -/
def tokenizeLiteral (literal : List Char) (token : Token) (cs : List Char) :
    Res TokenizeError (Token × List Char) :=
  match literalLoop literal cs with
  | .ok rest => .ok (token, rest)
  | .err e => .err e
  | .panic => .panic
  | .outOfFuel => .outOfFuel

/-- The scanning loop of `tokenize_float` (src/tokenizer.rs lines 127-138):
consume ASCII digits and `-` in any position, and at most one `.`; stop at the
first character that fits none of these (or at end of input).  Returns the
accumulated numeral characters and the remaining suffix. -/
def floatScan : List Char → Bool → (List Char × List Char)
  | [], _ => ([], [])
  | c :: cs, isDecimal =>
    if isDigitChar c || c = '-' then
      (c :: (floatScan cs isDecimal).1, (floatScan cs isDecimal).2)
    else if c = '.' && !isDecimal then
      ('.' :: (floatScan cs Bool.true).1, (floatScan cs Bool.true).2)
    else ([], c :: cs)

/-- Modelled from the spec: the standard library float parser (`str::parse::<f64>`)
that `tokenize_float` hands its accumulated substring to is not part of src/.
The spec (§4.1) calls it "a standard float parser".  We model the decimal forms
`Sign? (Digit+ | Digit+ '.' Digit* | Digit* '.' Digit+)` exactly, returning the
numeral's exact decimal value as a rational; every other string is a
`ParseFloatError`.  (Exponent forms and `inf`/`NaN` never reach this call:
the scanner only accumulates digits, `-` and `.`.) -/
def digitsVal (ds : List Char) : ℕ :=
  ds.foldl (fun acc c => 10 * acc + (c.toNat - 48)) 0

/-- Exact value of the decimal numeral with optional sign, integer digits and
fraction digits: `±(int.frac)` as a rational (built with `mkRat` so that it is
kernel-reducible). -/
def decimalVal (neg : Bool) (int frac : List Char) : ℚ :=
  let num : ℤ := (digitsVal int : ℤ) * (10 : ℤ) ^ frac.length + (digitsVal frac : ℤ)
  mkRat (if neg then -num else num) ((10 : ℕ) ^ frac.length)

/-- Continuation of `parseFloat` after the sign has been stripped (`t`), the
leading digits taken (`intPart`) and the remainder computed: accepts nothing
further (a plain integer, provided `t` is nonempty), or a `.` followed by
digits (provided there is a digit on at least one side of the `.`). -/
def parseFloatRest (neg : Bool) (t intPart : List Char) :
    List Char → Except ParseFloatError ℚ
  | [] =>
    if t.isEmpty then .error .invalid
    else .ok (decimalVal neg intPart [])
  | '.' :: frac =>
    if frac.all isDigitChar && !(intPart.isEmpty && frac.isEmpty) then
      .ok (decimalVal neg intPart frac)
    else .error .invalid
  | _ :: _ => .error .invalid

def parseFloat (s : List Char) : Except ParseFloatError ℚ :=
  match s with
  | [] => .error .invalid
  | c :: rest =>
    let neg : Bool := c = '-'
    let t := if c = '-' || c = '+' then rest else c :: rest
    parseFloatRest neg t (t.takeWhile isDigitChar) (t.dropWhile isDigitChar)

/-- `tokenize_float` (src/tokenizer.rs lines 123-146). -/
def tokenizeFloat (cs : List Char) : Res TokenizeError (Token × List Char) :=
  let r := floatScan cs Bool.false
  match parseFloat r.1 with
  | .ok f => .ok (.number f, r.2)
  | .error e => .err (.parseNumberError e)

/-- The loop of `tokenize_string` (src/tokenizer.rs lines 152-166): having seen
the opening quote, scan until an unescaped closing quote, toggling the escape
flag on backslashes; end of input means `UnclosedQuotes`.  The closing quote is
not part of the raw text; the returned suffix is the input after it. -/
def stringScan : List Char → Bool → List Char → Res TokenizeError (List Char × List Char)
  | [], _, _ => .err .unclosedQuotes
  | c :: cs, inEscape, acc =>
    if c = '"' && !inEscape then .ok (acc, cs)
    else stringScan cs (if c = '\\' then !inEscape else Bool.false) (acc ++ [c])

/-- `tokenize_string` (src/tokenizer.rs lines 148-169). -/
def tokenizeString (cs : List Char) : Res TokenizeError (Token × List Char) :=
  match stringScan cs Bool.false [] with
  | .ok (s, rest) => .ok (.string s, rest)
  | .err e => .err e
  | .panic => .panic
  | .outOfFuel => .outOfFuel

/-- The whitespace-skipping loop at the top of `create_token`
(src/tokenizer.rs lines 75-85).  The first read `chars[*index]` is unchecked
(a panic on empty input — unreachable from `tokenize`, whose loop guard ensures
a character remains); advancing to end of input mid-whitespace is
`UnexpectedEof`. -/
def skipWhitespace : List Char → Res TokenizeError (List Char)
  | [] => .panic
  | c :: cs =>
    if isAsciiWhitespace c then
      match cs with
      | [] => .err .unexpectedEof
      | _ :: _ => skipWhitespace cs
    else .ok (c :: cs)

/-- `create_token` (src/tokenizer.rs lines 74-104). -/
def createToken (cs : List Char) : Res TokenizeError (Token × List Char) :=
  match skipWhitespace cs with
  | .err e => .err e
  | .panic => .panic
  | .outOfFuel => .outOfFuel
  | .ok rest =>
    match rest with
    | [] => .panic
    | c :: rest' =>
      if c = '{' then .ok (.leftBrace, rest')
      else if c = '}' then .ok (.rightBrace, rest')
      else if c = '[' then .ok (.leftBracket, rest')
      else if c = ']' then .ok (.rightBracket, rest')
      else if c = ',' then .ok (.comma, rest')
      else if c = ':' then .ok (.colon, rest')
      else if c = 'n' then tokenizeLiteral ['n', 'u', 'l', 'l'] .null (c :: rest')
      else if c = 't' then tokenizeLiteral ['t', 'r', 'u', 'e'] .true (c :: rest')
      else if c = 'f' then tokenizeLiteral ['f', 'a', 'l', 's', 'e'] .false (c :: rest')
      else if c = '"' then tokenizeString rest'
      else if isDigitChar c || c = '-' then tokenizeFloat (c :: rest')
      else .err (.charNotRecognized c)

/-- The `while index < chars.len()` loop of `tokenize`
(src/tokenizer.rs lines 65-69), with fuel.  Each successful `createToken`
consumes at least one character, so fuel `length + 1` never runs out. -/
def tokenizeLoop : Nat → List Char → List Token → Res TokenizeError (List Token)
  | 0, _, _ => .outOfFuel
  | _ + 1, [], tokens => .ok tokens
  | fuel + 1, c :: cs, tokens =>
    match createToken (c :: cs) with
    | .ok (t, rest) => tokenizeLoop fuel rest (tokens ++ [t])
    | .err e => .err e
    | .panic => .panic
    | .outOfFuel => .outOfFuel

/-- `tokenize` (src/tokenizer.rs lines 60-72). -/
def tokenize (input : List Char) : Res TokenizeError (List Token) :=
  tokenizeLoop (input.length + 1) input []

/-! ## String unescaping (src/parser.rs lines 61-98) -/

/-- Rust `char::to_digit(16)`. -/
def toDigit16 (c : Char) : Option Nat :=
  let n := c.toNat
  if 48 ≤ n && n ≤ 57 then some (n - 48)        -- '0'..'9'
  else if 97 ≤ n && n ≤ 102 then some (n - 97 + 10)  -- 'a'..'f'
  else if 65 ≤ n && n ≤ 70 then some (n - 65 + 10)   -- 'A'..'F'
  else none

/-- Rust `char::from_u32`: `none` exactly on surrogate values and values above
0x10FFFF. -/
def fromU32 (n : Nat) : Option Char :=
  if h : n.isValidChar then some (Char.ofNatAux n h) else none

/-- Big-endian combination of four hexadecimal digit values, as accumulated by
the `for i in 0..4` loop of the `u` escape branch (src/parser.rs lines 77-83):
`sum += 16^(3-i) * digit`. -/
def hexSum (d1 d2 d3 d4 : Nat) : Nat :=
  16 ^ 3 * d1 + 16 ^ 2 * d2 + 16 * d3 + d4

/-- `unescape_string` (src/parser.rs lines 61-98): single pass with an escape
flag.  A trailing backslash sets escape mode and then the loop ends, returning
the output so far; the `f` escape emits code point 0x12 (as the source does),
and any unrecognized escaped character is emitted unchanged.  The `for i in
0..4` loop of the `u` branch (src/parser.rs lines 77-83) is unrolled so that
the recursion stays structural: each of the four reads first requires a next
character (`UnfinishedEscape` if the input has ended) and then a hexadecimal
digit (`InvalidHexValue` otherwise). -/
def unescapeString : List Char → Except TokenParseError (List Char)
  | [] => .ok []
  | '\\' :: cs =>
    match cs with
    | [] => .ok []
    | e :: cs' =>
      match e with
      | '\\' =>
        match unescapeString cs' with
        | .ok out => .ok ('\\' :: out)
        | .error err => .error err
      | '"' =>
        match unescapeString cs' with
        | .ok out => .ok ('"' :: out)
        | .error err => .error err
      | 'n' =>
        match unescapeString cs' with
        | .ok out => .ok ('\n' :: out)
        | .error err => .error err
      | 'r' =>
        match unescapeString cs' with
        | .ok out => .ok ('\r' :: out)
        | .error err => .error err
      | 't' =>
        match unescapeString cs' with
        | .ok out => .ok ('\t' :: out)
        | .error err => .error err
      | 'b' =>
        match unescapeString cs' with
        | .ok out => .ok (Char.ofNat 8 :: out)
        | .error err => .error err
      | 'f' =>
        match unescapeString cs' with
        | .ok out => .ok (Char.ofNat 18 :: out)
        | .error err => .error err
      | 'u' =>
        match cs' with
        | [] => .error .unfinishedEscape
        | c1 :: cs1 =>
          match toDigit16 c1 with
          | none => .error .invalidHexValue
          | some d1 =>
            match cs1 with
            | [] => .error .unfinishedEscape
            | c2 :: cs2 =>
              match toDigit16 c2 with
              | none => .error .invalidHexValue
              | some d2 =>
                match cs2 with
                | [] => .error .unfinishedEscape
                | c3 :: cs3 =>
                  match toDigit16 c3 with
                  | none => .error .invalidHexValue
                  | some d3 =>
                    match cs3 with
                    | [] => .error .unfinishedEscape
                    | c4 :: cs4 =>
                      match toDigit16 c4 with
                      | none => .error .invalidHexValue
                      | some d4 =>
                        match fromU32 (hexSum d1 d2 d3 d4) with
                        | none => .error .invalidCodePointValue
                        | some ch =>
                          match unescapeString cs4 with
                          | .ok out => .ok (ch :: out)
                          | .error err => .error err
      | other =>
        match unescapeString cs' with
        | .ok out => .ok (other :: out)
        | .error err => .error err
  | c :: cs =>
    match unescapeString cs with
    | .ok out => .ok (c :: out)
    | .error err => .error err

/-! ## Parser (src/parser.rs) -/

/-- Result type of the parser functions: the value (or collected list) paired
with the cursor value after the call. -/
abbrev PRes := Res TokenParseError (Value × Nat)

/-- Rust `HashMap::insert`: overwrite the entry with an equal key if present,
otherwise add the new entry. -/
def insertEntry (m : List (List Char × Value)) (key : List Char) (v : Value) :
    List (List Char × Value) :=
  if m.any (fun p => p.1 = key) then
    m.map (fun p => if p.1 = key then (key, v) else p)
  else m ++ [(key, v)]

mutual

/-- `parse_tokens` (src/parser.rs lines 34-54).  `tokens[*index]` out of bounds
is a panic.  For the atom tokens the index advances by one; brackets and braces
delegate to the array/object loops (the `fuel` parameter only drives the
recursion). -/
def parseTokens (tokens : List Token) : Nat → Nat → PRes
  | 0, _ => .outOfFuel
  | fuel + 1, index =>
    match tokens[index]? with
    | none => .panic
    | some Token.null => .ok (Value.null, index + 1)
    | some Token.false => .ok (Value.boolean Bool.false, index + 1)
    | some Token.true => .ok (Value.boolean Bool.true, index + 1)
    | some (Token.number q) => .ok (Value.number q, index + 1)
    | some (Token.string s) =>
      match unescapeString s with
      | .ok out => .ok (Value.string out, index + 1)
      | .error e => .err e
    | some Token.leftBracket =>
      match parseArrayLoop tokens fuel index [] with
      | .ok (vs, k) => .ok (Value.array vs, k + 1)
      | .err e => .err e
      | .panic => .panic
      | .outOfFuel => .outOfFuel
    | some Token.leftBrace =>
      match parseObjectLoop tokens fuel index [] with
      | .ok (es, k) => .ok (Value.object es, k)
      | .err e => .err e
      | .panic => .panic
      | .outOfFuel => .outOfFuel
    | some _ => .err .expectedValue

/-- The `loop` of `parse_array` (src/parser.rs lines 103-119), accumulating the
collected elements.  Each iteration first advances the cursor by one; a
`RightBracket` there ends the loop (the cursor is returned pointing at it, and
`parseTokens` adds the final `*index += 1` of `parse_array`). -/
def parseArrayLoop (tokens : List Token) : Nat → Nat → List Value → Res TokenParseError (List Value × Nat)
  | 0, _, _ => .outOfFuel
  | fuel + 1, index, acc =>
    match tokens[index + 1]? with
    | none => .panic
    | some Token.rightBracket => .ok (acc, index + 1)
    | some _ =>
      match parseTokens tokens fuel (index + 1) with
      | .ok (v, j) =>
        match tokens[j]? with
        | none => .panic
        | some Token.comma => parseArrayLoop tokens fuel j (acc ++ [v])
        | some Token.rightBracket => .ok (acc ++ [v], j)
        | some _ => .err .expectedComma
      | .err e => .err e
      | .panic => .panic
      | .outOfFuel => .outOfFuel

/-- The `loop` of `parse_object` (src/parser.rs lines 129-156).  Each iteration
advances the cursor by one; a `RightBrace` there ends the loop (and
`parse_object` returns the cursor still pointing at that `RightBrace` — there
is no final `*index += 1` in the source).  A `String` key advances the cursor;
a following `Colon` leads to unescaping the key, parsing the value and
inserting the pair, while any other token silently skips insertion; in both
cases the same delimiter check runs (`Comma` continues, `RightBrace` ends,
anything else is `ExpectedComma`). -/
def parseObjectLoop (tokens : List Token) : Nat → Nat → List (List Char × Value) → Res TokenParseError (List (List Char × Value) × Nat)
  | 0, _, _ => .outOfFuel
  | fuel + 1, index, acc =>
    match tokens[index + 1]? with
    | none => .panic
    | some Token.rightBrace => .ok (acc, index + 1)
    | some (Token.string prop) =>
      match tokens[index + 2]? with
      | none => .panic
      | some Token.colon =>
        match unescapeString prop with
        | .error e => .err e
        | .ok key =>
          match parseTokens tokens fuel (index + 3) with
          | .ok (v, j) =>
            match tokens[j]? with
            | none => .panic
            | some Token.comma => parseObjectLoop tokens fuel j (insertEntry acc key v)
            | some Token.rightBrace => .ok (insertEntry acc key v, j)
            | some _ => .err .expectedComma
          | .err e => .err e
          | .panic => .panic
          | .outOfFuel => .outOfFuel
      | some Token.comma => parseObjectLoop tokens fuel (index + 2) acc
      | some Token.rightBrace => .ok (acc, index + 2)
      | some _ => .err .expectedComma
    | some _ => .err .expectedProperty

end

/-- `parse_array` (src/parser.rs lines 100-124): run the loop from the cursor
(which is on the `LeftBracket`) and advance once past the closing
`RightBracket`. -/
def parseArray (tokens : List Token) (fuel index : Nat) : PRes :=
  match parseArrayLoop tokens fuel index [] with
  | .ok (vs, k) => .ok (Value.array vs, k + 1)
  | .err e => .err e
  | .panic => .panic
  | .outOfFuel => .outOfFuel

/-- `parse_object` (src/parser.rs lines 126-158): run the loop from the cursor
(which is on the `LeftBrace`); the returned cursor is whatever the loop ends
with — it is not advanced past the closing `RightBrace`. -/
def parseObject (tokens : List Token) (fuel index : Nat) : PRes :=
  match parseObjectLoop tokens fuel index [] with
  | .ok (es, k) => .ok (Value.object es, k)
  | .err e => .err e
  | .panic => .panic
  | .outOfFuel => .outOfFuel

/-- Fuel that is always sufficient for `parseTokens` on the given token
sequence: every unit of fuel spent either advances the cursor or enters a
bracket whose loop immediately advances it. -/
def enoughFuel (tokens : List Token) : Nat :=
  2 * tokens.length + 2

/-- `parse` (src/lib.rs lines 9-13): tokenize, then parse from cursor 0,
discarding the final cursor. -/
def parse (input : List Char) : Res ParseError Value :=
  match tokenize input with
  | .ok tokens =>
    match parseTokens tokens (enoughFuel tokens) 0 with
    | .ok (v, _) => .ok v
    | .err e => .err (ParseError.parseError e)
    | .panic => .panic
    | .outOfFuel => .outOfFuel
  | .err e => .err (ParseError.tokenizeError e)
  | .panic => .panic
  | .outOfFuel => .outOfFuel

/-! ## Theorems about the claims -/

/-- C1: the claim says `parse` (via `tokenize` and `parse_tokens`) never
panics, treating end-of-token-sequence as a recoverable error — in particular
on the empty input (whose tokenization is the empty token sequence) and on
`"["` and `"{"`.  The code violates this: `parse_tokens` reads `tokens[*index]`
with no bounds check (src/parser.rs line 35), and `parse_array` /
`parse_object` do the same after advancing the cursor (lines 106, 132), so all
three inputs panic instead of returning an `Err`. -/
theorem C1_parse_panics_at_end_of_tokens :
    tokenize [] = .ok [] ∧
    parse "".toList = .panic ∧
    parse "[".toList = .panic ∧
    parse "\x7b".toList = .panic := by
  refine ⟨rfl, rfl, rfl, rfl⟩

/-- C2, counterexample: on the token form of `{}` a successful `parse_tokens`
run from cursor 0 ends with the cursor at 1 — pointing AT the object's closing
`RightBrace`, not one-past it (one-past the last consumed token would be 2,
since the object's tokens occupy positions 0 and 1).  Consequently the token
form of `[{}]`, which the claim says an enclosing parse handles correctly,
fails with `ExpectedComma`: the enclosing array's delimiter check lands on the
object's own `RightBrace`. -/
theorem C2_object_cursor_counterexample :
    parseTokens [Token.leftBrace, Token.rightBrace] 37 0 = .ok (Value.object [], 1) ∧
    (1 : Nat) ≠ 2 ∧
    parseTokens [Token.leftBracket, Token.leftBrace, Token.rightBrace, Token.rightBracket] 37 0 =
      .err .expectedComma := by
  exact ⟨rfl, by decide, rfl⟩

/-- Helper: a successful array loop always returns with the cursor on the
closing `RightBracket` (both exits of the loop in src/parser.rs lines 106 and
116 happen at a `RightBracket`). -/
theorem parseArrayLoop_exits_at_bracket :
    ∀ fuel tokens index acc vs k, parseArrayLoop tokens fuel index acc = .ok (vs, k) →
      tokens[k]? = some Token.rightBracket := by
  intro fuel
  induction fuel with
  | zero =>
    intro tokens index acc vs k h
    simp [parseArrayLoop] at h
  | succ fuel ih =>
    intro tokens index acc vs k h
    rw [parseArrayLoop] at h
    split at h
    · exact Res.noConfusion h
    · rename_i heq
      injection h with h'
      injection h' with h1 h2
      subst h2
      exact heq
    · split at h
      · split at h
        · exact Res.noConfusion h
        · exact ih _ _ _ _ _ h
        · rename_i heq
          injection h with h'
          injection h' with h1 h2
          subst h2
          exact heq
        · exact Res.noConfusion h
      · exact Res.noConfusion h
      · exact Res.noConfusion h
      · exact Res.noConfusion h

/-- Helper: a successful object loop always returns with the cursor on the
closing `RightBrace` (all three exits of the loop in src/parser.rs lines 132
and 150 happen at a `RightBrace`), and `parse_object` does not advance past
it. -/
theorem parseObjectLoop_exits_at_brace :
    ∀ fuel tokens index acc es k, parseObjectLoop tokens fuel index acc = .ok (es, k) →
      tokens[k]? = some Token.rightBrace := by
  intro fuel
  induction fuel with
  | zero =>
    intro tokens index acc es k h
    simp [parseObjectLoop] at h
  | succ fuel ih =>
    intro tokens index acc es k h
    rw [parseObjectLoop] at h
    split at h
    · exact Res.noConfusion h
    · rename_i heq
      injection h with h'
      injection h' with h1 h2
      subst h2
      exact heq
    · split at h
      · exact Res.noConfusion h
      · split at h
        · exact Res.noConfusion h
        · split at h
          · split at h
            · exact Res.noConfusion h
            · exact ih _ _ _ _ _ h
            · rename_i heq
              injection h with h'
              injection h' with h1 h2
              subst h2
              exact heq
            · exact Res.noConfusion h
          · exact Res.noConfusion h
          · exact Res.noConfusion h
          · exact Res.noConfusion h
      · exact ih _ _ _ _ _ h
      · rename_i heq
        injection h with h'
        injection h' with h1 h2
        subst h2
        exact heq
      · exact Res.noConfusion h
    · exact Res.noConfusion h

/-- C2, amended: after a successful `parse_tokens`, the cursor points one-past
the last consumed token for every value shape EXCEPT `Value::Object`: atoms
(null, booleans, numbers, strings) leave the cursor at `start + 1`, and a
successful array parse leaves it one-past the closing `RightBracket`.  For
`Value::Object` the cursor instead points AT the object's closing `RightBrace`
(`parse_object` never advances past it), so a nested object such as the token
form of `[{}]` makes the enclosing parse fail (see the counterexample). -/
theorem C2_cursor_one_past_except_object :
    ∀ fuel tokens index v j, parseTokens tokens fuel index = .ok (v, j) →
      ((∀ es, v = Value.object es → tokens[j]? = some Token.rightBrace) ∧
       (∀ vs, v = Value.array vs →
          0 < j ∧ tokens[j - 1]? = some Token.rightBracket) ∧
       ((v = Value.null ∨ (∃ b, v = Value.boolean b) ∨
         (∃ q, v = Value.number q) ∨ (∃ s, v = Value.string s)) → j = index + 1)) := by
  intro fuel tokens index v j h
  match fuel with
  | 0 => simp [parseTokens] at h
  | fuel + 1 =>
    rw [parseTokens] at h
    split at h
    · exact Res.noConfusion h
    · injection h with h'
      injection h' with h1 h2
      subst h1; subst h2
      exact ⟨fun es he => Value.noConfusion he, fun vs he => Value.noConfusion he, fun _ => rfl⟩
    · injection h with h'
      injection h' with h1 h2
      subst h1; subst h2
      exact ⟨fun es he => Value.noConfusion he, fun vs he => Value.noConfusion he, fun _ => rfl⟩
    · injection h with h'
      injection h' with h1 h2
      subst h1; subst h2
      exact ⟨fun es he => Value.noConfusion he, fun vs he => Value.noConfusion he, fun _ => rfl⟩
    · injection h with h'
      injection h' with h1 h2
      subst h1; subst h2
      exact ⟨fun es he => Value.noConfusion he, fun vs he => Value.noConfusion he, fun _ => rfl⟩
    · split at h
      · injection h with h'
        injection h' with h1 h2
        subst h1; subst h2
        exact ⟨fun es he => Value.noConfusion he, fun vs he => Value.noConfusion he, fun _ => rfl⟩
      · exact Res.noConfusion h
    · split at h
      · rename_i vs k heq
        injection h with h'
        injection h' with h1 h2
        subst h1; subst h2
        refine ⟨fun es he => Value.noConfusion he, fun vs' he => ?_, fun hat => ?_⟩
        · refine ⟨Nat.succ_pos _, ?_⟩
          simpa using parseArrayLoop_exits_at_bracket fuel tokens index [] vs k heq
        · rcases hat with h' | ⟨b, h'⟩ | ⟨q, h'⟩ | ⟨s, h'⟩ <;> exact Value.noConfusion h'
      · exact Res.noConfusion h
      · exact Res.noConfusion h
      · exact Res.noConfusion h
    · split at h
      · rename_i es k heq
        injection h with h'
        injection h' with h1 h2
        subst h1; subst h2
        refine ⟨fun es' he => ?_, fun vs' he => Value.noConfusion he, fun hat => ?_⟩
        · exact parseObjectLoop_exits_at_brace fuel tokens index [] es k heq
        · rcases hat with h' | ⟨b, h'⟩ | ⟨q, h'⟩ | ⟨s, h'⟩ <;> exact Value.noConfusion h'
      · exact Res.noConfusion h
      · exact Res.noConfusion h
      · exact Res.noConfusion h
    · exact Res.noConfusion h

/-- C2, witness for the amended theorem: concrete instances of all three
shapes — a `Null` atom ends at cursor 1; the array `[null]` ends at cursor 3,
one past its `RightBracket` at position 2; the object `{}` ends at cursor 1,
pointing at its `RightBrace`. -/
theorem C2_cursor_one_past_except_object_witness :
    ([Token.null][1]? = none ∧ (1 : Nat) = 0 + 1) ∧
    (0 < 3 ∧ [Token.leftBracket, Token.null, Token.rightBracket][3 - 1]? = some Token.rightBracket) ∧
    ([Token.leftBrace, Token.rightBrace][1]? = some Token.rightBrace) := by
  refine ⟨⟨rfl, ?_⟩, ?_, ?_⟩
  · exact (C2_cursor_one_past_except_object 37 [Token.null] 0 Value.null 1 rfl).2.2 (Or.inl rfl)
  · exact (C2_cursor_one_past_except_object 37 [Token.leftBracket, Token.null, Token.rightBracket]
      0 (Value.array [Value.null]) 3 rfl).2.1 [Value.null] rfl
  · exact (C2_cursor_one_past_except_object 37 [Token.leftBrace, Token.rightBrace]
      0 (Value.object []) 1 rfl).1 [] rfl

/-- C3: the claim says that a literal lexeme that starts like `null`, `true`
or `false` but ends before the literal is complete (e.g. the input `"nul"`)
yields `Err(UnfinishedLiteralValue)` rather than reading past the end of the
character sequence.  The code violates the ends-early half: `tokenize_literal`
reads `chars[*index]` with no bounds check (src/tokenizer.rs line 113), so
`"nul"`, `"tru"` and `"fals"` all panic; only an in-bounds character mismatch
(e.g. `"nurse"`) produces the error the claim describes. -/
theorem C3_literal_eof_panics :
    tokenize "nul".toList = .panic ∧
    tokenize "tru".toList = .panic ∧
    tokenize "fals".toList = .panic ∧
    tokenize "nurse".toList = .err .unfinishedLiteralValue ∧
    tokenize "truth".toList = .err .unfinishedLiteralValue := by
  exact ⟨rfl, rfl, rfl, rfl, rfl⟩

/-- Helper: `unescape_string` only ever produces the three escape-related
errors. -/
theorem unescapeString_error_mem :
    ∀ cs e, unescapeString cs = .error e →
      e = .unfinishedEscape ∨ e = .invalidHexValue ∨ e = .invalidCodePointValue := by
  intro cs
  induction cs using unescapeString.induct <;>
    (intro e h; simp only [unescapeString] at h; repeat' split at h) <;>
    simp_all

/-- Helper: no parser function ever produces `TrailingComma` or
`ExpectedColon` — neither variant is constructed anywhere in src/parser.rs. -/
theorem parser_error_never_phantom :
    ∀ fuel,
      (∀ tokens index e, parseTokens tokens fuel index = .err e →
        e ≠ .trailingComma ∧ e ≠ .expectedColon) ∧
      (∀ tokens index acc e, parseArrayLoop tokens fuel index acc = .err e →
        e ≠ .trailingComma ∧ e ≠ .expectedColon) ∧
      (∀ tokens index acc e, parseObjectLoop tokens fuel index acc = .err e →
        e ≠ .trailingComma ∧ e ≠ .expectedColon) := by
  intro fuel
  induction fuel with
  | zero =>
    refine ⟨fun tokens index e h => ?_, fun tokens index acc e h => ?_,
      fun tokens index acc e h => ?_⟩ <;>
      simp [parseTokens, parseArrayLoop, parseObjectLoop] at h
  | succ fuel ih =>
    obtain ⟨ih1, ih2, ih3⟩ := ih
    refine ⟨fun tokens index e h => ?_, fun tokens index acc e h => ?_,
      fun tokens index acc e h => ?_⟩ <;>
      (first
        | rw [parseTokens] at h
        | rw [parseArrayLoop] at h
        | rw [parseObjectLoop] at h) <;>
      repeat' split at h
    all_goals solve
      | exact Res.noConfusion h
      | exact ih1 _ _ _ h
      | exact ih2 _ _ _ _ h
      | exact ih3 _ _ _ _ h
      | (injection h with h; subst h; simp)
      | simp
      | (rename_i heq; rcases unescapeString_error_mem _ _ heq with rfl | rfl | rfl <;> simp)
      | (rename_i heq; exact ih1 _ _ _ heq)
      | (rename_i heq; exact ih2 _ _ _ _ heq)
      | (rename_i heq; exact ih3 _ _ _ _ heq)
      | (injection h with h; subst h; rename_i heq;
         rcases unescapeString_error_mem _ _ heq with rfl | rfl | rfl <;> simp)
      | (injection h with h; subst h; rename_i heq; exact ih1 _ _ _ heq)
      | (injection h with h; subst h; rename_i heq; exact ih2 _ _ _ _ heq)
      | (injection h with h; subst h; rename_i heq; exact ih3 _ _ _ _ heq)

/-- C4, counterexample: the claim says the number scanner stops at the first
character that does not fit `-?digits(.digits)?`, so that the `'-'` in `"3-4"`
terminates the numeral.  In the code the scan loop accepts `'-'` at any
position (src/tokenizer.rs line 130), so on `"3-4"` it consumes all three
characters into one numeral (which then fails to parse as a float) instead of
stopping after `"3"`; `tokenize "3-4"` is therefore `ParseNumberError`, not a
`Number 3` token followed by more tokens. -/
theorem C4_scan_counterexample :
    floatScan "3-4".toList Bool.false = ("3-4".toList, []) ∧
    "3-4".toList ≠ "3".toList ∧
    tokenize "3-4".toList = .err (.parseNumberError .invalid) := by
  refine ⟨rfl, by decide, rfl⟩

/-- C6: `parse_tokens` never returns the `TrailingComma` error (the variant is
declared but never constructed), and a `Comma` immediately before the closing
delimiter is accepted: the token forms of `[true,]` and `[true]` produce the
same `Value::Array`, and the token forms of `{"a":true,}` and `{"a":true}`
produce the same `Value::Object` (only the final cursors differ). -/
theorem C6_trailing_comma_accepted :
    (∀ tokens fuel index, parseTokens tokens fuel index ≠ .err .trailingComma) ∧
    parseTokens [Token.leftBracket, Token.true, Token.comma, Token.rightBracket] 37 0 =
      .ok (Value.array [Value.boolean Bool.true], 4) ∧
    parseTokens [Token.leftBracket, Token.true, Token.rightBracket] 37 0 =
      .ok (Value.array [Value.boolean Bool.true], 3) ∧
    parseTokens [Token.leftBrace, Token.string ['a'], Token.colon, Token.true,
        Token.comma, Token.rightBrace] 37 0 =
      .ok (Value.object [(['a'], Value.boolean Bool.true)], 5) ∧
    parseTokens [Token.leftBrace, Token.string ['a'], Token.colon, Token.true,
        Token.rightBrace] 37 0 =
      .ok (Value.object [(['a'], Value.boolean Bool.true)], 4) := by
  refine ⟨fun tokens fuel index h => ?_, rfl, rfl, rfl, rfl⟩
  exact ((parser_error_never_phantom fuel).1 tokens index _ h).1 rfl

/-- C7: when the token after an object key is not a `Colon`, the parser
returns no `ExpectedColon` error and inserts no entry for that key: it
proceeds directly to the delimiter check on that same token.  The token form
of `{"k"}` parses to the empty object (break on `RightBrace`); the token form
of `{"k","a":1}` parses to an object containing only `"a"` (continue on
`Comma`, nothing inserted for `"k"`); the token form of `{"k" true}` fails
with `ExpectedComma`; and `ExpectedColon` is never returned for any input. -/
theorem C7_missing_colon_skips_insertion :
    (∀ tokens fuel index, parseTokens tokens fuel index ≠ .err .expectedColon) ∧
    parseTokens [Token.leftBrace, Token.string ['k'], Token.rightBrace] 37 0 =
      .ok (Value.object [], 2) ∧
    parseTokens [Token.leftBrace, Token.string ['k'], Token.comma, Token.string ['a'],
        Token.colon, Token.number 1, Token.rightBrace] 37 0 =
      .ok (Value.object [(['a'], Value.number 1)], 6) ∧
    parseTokens [Token.leftBrace, Token.string ['k'], Token.true, Token.rightBrace] 37 0 =
      .err .expectedComma ∧
    parse "\x7b\"k\"\x7d".toList = .ok (Value.object []) := by
  refine ⟨fun tokens fuel index h => ?_, rfl, rfl, rfl, rfl⟩
  exact ((parser_error_never_phantom fuel).1 tokens index _ h).2 rfl

/-- Helper: a successful lookup in a token sequence is unchanged when more
tokens are appended after it. -/
theorem getElem?_append_of_some {α : Type} {l r : List α} {n : Nat} {a : α}
    (h : l[n]? = some a) : (l ++ r)[n]? = some a := by
  have hlt : n < l.length := by
    by_contra hge
    rw [List.getElem?_eq_none (Nat.le_of_not_lt hge)] at h
    exact Option.noConfusion h
  rw [List.getElem?_append_left hlt]
  exact h

/-- Helper (frame property): a successful parse reads only the tokens it
consumed, so appending extra tokens after the sequence changes neither the
value nor the final cursor of any of the three parser functions. -/
theorem parser_frame :
    ∀ fuel,
      (∀ tokens rest index v j, parseTokens tokens fuel index = .ok (v, j) →
        parseTokens (tokens ++ rest) fuel index = .ok (v, j)) ∧
      (∀ tokens rest index acc vs k, parseArrayLoop tokens fuel index acc = .ok (vs, k) →
        parseArrayLoop (tokens ++ rest) fuel index acc = .ok (vs, k)) ∧
      (∀ tokens rest index acc es k, parseObjectLoop tokens fuel index acc = .ok (es, k) →
        parseObjectLoop (tokens ++ rest) fuel index acc = .ok (es, k)) := by
  intro fuel
  induction fuel with
  | zero =>
    refine ⟨fun tokens rest index v j h => ?_, fun tokens rest index acc vs k h => ?_,
      fun tokens rest index acc es k h => ?_⟩ <;>
      simp [parseTokens, parseArrayLoop, parseObjectLoop] at h
  | succ fuel ih =>
    obtain ⟨ih1, ih2, ih3⟩ := ih
    refine ⟨fun tokens rest index v j h => ?_, fun tokens rest index acc vs k h => ?_,
      fun tokens rest index acc es k h => ?_⟩
    · rw [parseTokens] at h ⊢
      cases ht : tokens[index]? with
      | none => rw [ht] at h; exact Res.noConfusion h
      | some t =>
        rw [ht] at h
        rw [getElem?_append_of_some ht]
        cases t <;> try exact h
        case leftBracket =>
          cases harr : parseArrayLoop tokens fuel index [] with
          | ok p =>
            obtain ⟨vs', k'⟩ := p
            rw [harr] at h
            rw [ih2 tokens rest index [] vs' k' harr]
            exact h
          | err e => rw [harr] at h; exact Res.noConfusion h
          | panic => rw [harr] at h; exact Res.noConfusion h
          | outOfFuel => rw [harr] at h; exact Res.noConfusion h
        case leftBrace =>
          cases hobj : parseObjectLoop tokens fuel index [] with
          | ok p =>
            obtain ⟨es', k'⟩ := p
            rw [hobj] at h
            rw [ih3 tokens rest index [] es' k' hobj]
            exact h
          | err e => rw [hobj] at h; exact Res.noConfusion h
          | panic => rw [hobj] at h; exact Res.noConfusion h
          | outOfFuel => rw [hobj] at h; exact Res.noConfusion h
    · rw [parseArrayLoop] at h ⊢
      cases ht : tokens[index + 1]? with
      | none => rw [ht] at h; exact Res.noConfusion h
      | some t =>
        rw [ht] at h
        rw [getElem?_append_of_some ht]
        cases t <;> try exact h
        all_goals (
          cases hpt : parseTokens tokens fuel (index + 1) with
          | ok p =>
            obtain ⟨v', j'⟩ := p
            rw [hpt] at h
            rw [ih1 tokens rest (index + 1) v' j' hpt]
            dsimp only at h ⊢
            cases ht2 : tokens[j']? with
            | none => rw [ht2] at h; exact Res.noConfusion h
            | some t2 =>
              rw [ht2] at h
              rw [getElem?_append_of_some ht2]
              cases t2 <;> try exact h
              case comma => exact ih2 tokens rest j' (acc ++ [v']) vs k h
          | err e => rw [hpt] at h; exact Res.noConfusion h
          | panic => rw [hpt] at h; exact Res.noConfusion h
          | outOfFuel => rw [hpt] at h; exact Res.noConfusion h)
    · rw [parseObjectLoop] at h ⊢
      cases ht : tokens[index + 1]? with
      | none => rw [ht] at h; exact Res.noConfusion h
      | some t =>
        rw [ht] at h
        rw [getElem?_append_of_some ht]
        cases t <;> try exact Res.noConfusion h
        case rightBrace => exact h
        case string prop =>
          cases ht2 : tokens[index + 2]? with
          | none => rw [ht2] at h; exact Res.noConfusion h
          | some t2 =>
            rw [ht2] at h
            rw [getElem?_append_of_some ht2]
            cases t2 <;> try exact Res.noConfusion h
            case rightBrace => exact h
            case comma => exact ih3 tokens rest (index + 2) acc es k h
            case colon =>
              dsimp only at h ⊢
              cases hu : unescapeString prop with
              | error e => rw [hu] at h; exact Res.noConfusion h
              | ok key =>
                rw [hu] at h
                cases hpt : parseTokens tokens fuel (index + 3) with
                | ok p =>
                  obtain ⟨v', j'⟩ := p
                  rw [hpt] at h
                  rw [ih1 tokens rest (index + 3) v' j' hpt]
                  dsimp only at h ⊢
                  cases ht3 : tokens[j']? with
                  | none => rw [ht3] at h; exact Res.noConfusion h
                  | some t3 =>
                    rw [ht3] at h
                    rw [getElem?_append_of_some ht3]
                    cases t3 <;> try exact h
                    case comma => exact ih3 tokens rest j' (insertEntry acc key v') es k h
                | err e => rw [hpt] at h; exact Res.noConfusion h
                | panic => rw [hpt] at h; exact Res.noConfusion h
                | outOfFuel => rw [hpt] at h; exact Res.noConfusion h

/-- C10: trailing content after one complete root value is silently accepted.
If a token sequence parses from cursor 0 to `(v, j)`, then any extension of it
by extra tokens parses to exactly the same `(v, j)` — the first value is
returned and the extra tokens are left unconsumed (and unexamined) — and
`parse` (which discards the final cursor, src/lib.rs lines 9-13) returns `Ok`:
concretely, the token form of `null true` yields `Null` with cursor 1, and the
text `"null true"` parses to `Value::Null` with no error about the trailing
`true`. -/
theorem C10_trailing_tokens_accepted :
    (∀ fuel tokens rest v j, parseTokens tokens fuel 0 = .ok (v, j) →
      parseTokens (tokens ++ rest) fuel 0 = .ok (v, j)) ∧
    parseTokens [Token.null, Token.true] 37 0 = .ok (Value.null, 1) ∧
    parse "null true".toList = .ok Value.null :=
  ⟨fun fuel tokens rest v j h => (parser_frame fuel).1 tokens rest 0 v j h, rfl, rfl⟩

/-- C10, witness: the frame component applied at the concrete token sequence
`[Null]` extended by `[True]`. -/
theorem C10_trailing_tokens_accepted_witness :
    parseTokens ([Token.null] ++ [Token.true]) 5 0 = .ok (Value.null, 1) :=
  C10_trailing_tokens_accepted.1 5 [Token.null] [Token.true] Value.null 1 rfl

/-- C4, amended: the number scanner consumes ASCII digits and `-` at ANY
position, plus at most one `.` (counting one already seen when the decimal
flag is set on entry): the consumed characters together with the remaining
suffix reassemble the input, every consumed character is a digit, `-` or `.`,
and the scanner stops exactly at the first character that is neither a digit,
nor `-`, nor a first `.`.  (So, contrary to the claim, a `-` after the first
character does not terminate the numeral — see the counterexample.) -/
theorem C4_scan_consumes_digits_dashes_one_dot :
    ∀ cs dec,
      cs = (floatScan cs dec).1 ++ (floatScan cs dec).2 ∧
      (∀ c ∈ (floatScan cs dec).1, isDigitChar c = Bool.true ∨ c = '-' ∨ c = '.') ∧
      (floatScan cs dec).1.count '.' + (if dec = Bool.true then 1 else 0) ≤ 1 ∧
      (∀ c rest', (floatScan cs dec).2 = c :: rest' →
        isDigitChar c = Bool.false ∧ c ≠ '-' ∧
        (c = '.' → dec = Bool.true ∨ '.' ∈ (floatScan cs dec).1)) := by
  intro cs
  induction cs with
  | nil =>
    intro dec
    refine ⟨rfl, by simp [floatScan], ?_, ?_⟩
    · simp only [floatScan, List.count_nil]
      split <;> omega
    · intro c rest' h
      simp [floatScan] at h
  | cons c cs ih =>
    intro dec
    by_cases h1 : (isDigitChar c || c = '-') = Bool.true
    · have hscan : floatScan (c :: cs) dec =
          (c :: (floatScan cs dec).1, (floatScan cs dec).2) := by
        rw [floatScan, if_pos h1]
      have hnotdot : c ≠ '.' := by
        rcases Bool.or_eq_true_iff.mp h1 with hd | he
        · intro hc; rw [hc] at hd; exact Bool.noConfusion hd
        · intro hc
          rw [hc] at he
          simp at he
      obtain ⟨ihsplit, ihmem, ihcount, ihstop⟩ := ih dec
      refine ⟨?_, ?_, ?_, ?_⟩
      · rw [hscan]
        exact congrArg (c :: ·) ihsplit
      · rw [hscan]
        intro x hx
        rcases List.mem_cons.mp hx with rfl | hx'
        · rcases Bool.or_eq_true_iff.mp h1 with hd | he
          · exact Or.inl hd
          · exact Or.inr (Or.inl (by simpa using he))
        · exact ihmem x hx'
      · rw [hscan]
        have hne : ('.' : Char) ≠ c := fun h => hnotdot h.symm
        simp only [List.count_cons, beq_iff_eq, hnotdot, hne, if_false]
        omega
      · rw [hscan]
        intro x rest' hx
        obtain ⟨hst1, hst2, hst3⟩ := ihstop x rest' hx
        exact ⟨hst1, hst2, fun hdot => (hst3 hdot).imp id (fun hm => List.mem_cons_of_mem _ hm)⟩
    · by_cases h2 : (c = '.' && !dec) = Bool.true
      · have hc : c = '.' := by
          rcases Bool.and_eq_true_iff.mp h2 with ⟨ha, _⟩
          simpa using ha
        have hdec : dec = Bool.false := by
          rcases Bool.and_eq_true_iff.mp h2 with ⟨_, hb⟩
          simpa using hb
        have hscan : floatScan (c :: cs) dec =
            ('.' :: (floatScan cs Bool.true).1, (floatScan cs Bool.true).2) := by
          rw [floatScan, if_neg h1, if_pos h2]
        obtain ⟨ihsplit, ihmem, ihcount, ihstop⟩ := ih Bool.true
        refine ⟨?_, ?_, ?_, ?_⟩
        · rw [hscan]
          subst hc
          exact congrArg ('.' :: ·) ihsplit
        · rw [hscan]
          intro x hx
          rcases List.mem_cons.mp hx with rfl | hx'
          · exact Or.inr (Or.inr rfl)
          · exact ihmem x hx'
        · rw [hscan]
          simp only [List.count_cons, beq_iff_eq, if_pos rfl]
          simp only [if_pos rfl] at ihcount
          rw [hdec]
          simp only [Bool.false_eq_true, if_false]
          omega
        · rw [hscan]
          intro x rest' hx
          obtain ⟨hst1, hst2, _⟩ := ihstop x rest' hx
          exact ⟨hst1, hst2, fun _ => Or.inr (List.mem_cons_self _ _)⟩
      · have hscan : floatScan (c :: cs) dec = ([], c :: cs) := by
          rw [floatScan, if_neg h1, if_neg h2]
        refine ⟨by rw [hscan]; rfl, by rw [hscan]; intro x hx; simp at hx, ?_, ?_⟩
        · rw [hscan]
          simp only [List.count_nil]
          split <;> omega
        · rw [hscan]
          intro x rest' hx
          injection hx with hx1 hx2
          subst hx1
          have hdig : isDigitChar c = Bool.false := by
            cases hb : isDigitChar c
            · rfl
            · exact absurd (by rw [Bool.or_eq_true_iff]; exact Or.inl hb) h1
          refine ⟨hdig, ?_, ?_⟩
          · intro hx'
            exact h1 (by rw [hx']; simp)
          · intro hx'
            cases hd : dec
            · exact absurd (by rw [hx', hd]; rfl) h2
            · exact Or.inl rfl

/-- C4, witness for the amended theorem: on `"3-4"` the consumed part and the
rest reassemble the input, and on `"12x"` the scanner stops at `'x'`, which is
neither a digit, nor `-`, nor a first `.`. -/
theorem C4_scan_consumes_digits_dashes_one_dot_witness :
    "3-4".toList = (floatScan "3-4".toList Bool.false).1 ++ (floatScan "3-4".toList Bool.false).2 ∧
    (isDigitChar 'x' = Bool.false ∧ 'x' ≠ '-' ∧
      ('x' = '.' → Bool.false = Bool.true ∨ '.' ∈ (floatScan "12x".toList Bool.false).1)) :=
  ⟨(C4_scan_consumes_digits_dashes_one_dot "3-4".toList Bool.false).1,
   (C4_scan_consumes_digits_dashes_one_dot "12x".toList Bool.false).2.2.2 'x' [] rfl⟩

/-- C9: all eight simple escapes decode in one pass, each branch emitting
exactly one unit and then continuing in non-escape mode on the remaining
input: `\"` gives `"`, `\/` gives `/` (via the catch-all arm), `\\` gives `\`,
`\b` gives code point 0x08, `\n`, `\r`, `\t` give the usual controls, and `\f`
gives code point 0x12 — not the standard form feed 0x0C (the emitted character
differs from 0x0C, as the final conjunct records).  The decode of the full
eight-escape raw string is computed at the end. -/
theorem C9_simple_escapes_decoded :
    (∀ rest, unescapeString ('\\' :: '"' :: rest) =
      (unescapeString rest).map (fun out => '"' :: out)) ∧
    (∀ rest, unescapeString ('\\' :: '/' :: rest) =
      (unescapeString rest).map (fun out => '/' :: out)) ∧
    (∀ rest, unescapeString ('\\' :: '\\' :: rest) =
      (unescapeString rest).map (fun out => '\\' :: out)) ∧
    (∀ rest, unescapeString ('\\' :: 'b' :: rest) =
      (unescapeString rest).map (fun out => Char.ofNat 8 :: out)) ∧
    (∀ rest, unescapeString ('\\' :: 'n' :: rest) =
      (unescapeString rest).map (fun out => '\n' :: out)) ∧
    (∀ rest, unescapeString ('\\' :: 'r' :: rest) =
      (unescapeString rest).map (fun out => '\r' :: out)) ∧
    (∀ rest, unescapeString ('\\' :: 't' :: rest) =
      (unescapeString rest).map (fun out => '\t' :: out)) ∧
    (∀ rest, unescapeString ('\\' :: 'f' :: rest) =
      (unescapeString rest).map (fun out => Char.ofNat 18 :: out)) ∧
    Char.ofNat 18 ≠ Char.ofNat 12 ∧
    unescapeString ['\\', '"', '\\', '/', '\\', '\\', '\\', 'b', '\\', 'f', '\\', 'n', '\\', 'r', '\\', 't'] =
      .ok ['"', '/', '\\', Char.ofNat 8, Char.ofNat 18, '\n', '\r', '\t'] := by
  refine ⟨?_, ?_, ?_, ?_, ?_, ?_, ?_, ?_, by decide, rfl⟩ <;>
    (intro rest; cases h : unescapeString rest <;> simp [unescapeString, h, Except.map])

/-- C8: a `\u` escape reads exactly four following characters.  When all four
are hexadecimal digits, their values are combined big-endian (`hexSum`) and
the result is emitted as that scalar code point when valid, and fails with
`InvalidCodePointValue` when not (e.g. a lone UTF-16 surrogate half such as
`\uD800`); when the input ends before four characters were read (all of them
hexadecimal so far) the result is `UnfinishedEscape`; and when one of the four
is not a hexadecimal digit (all before it hexadecimal) the result is
`InvalidHexValue`.  Concretely, `AB` decodes to `AB`, `\uD800` to
`InvalidCodePointValue`, `\uZZZZ` to `InvalidHexValue` and `\u12` to
`UnfinishedEscape`. -/
theorem C8_unicode_escape :
    (∀ c1 c2 c3 c4 d1 d2 d3 d4 rest,
      toDigit16 c1 = some d1 → toDigit16 c2 = some d2 →
      toDigit16 c3 = some d3 → toDigit16 c4 = some d4 →
      unescapeString ('\\' :: 'u' :: c1 :: c2 :: c3 :: c4 :: rest) =
        match fromU32 (hexSum d1 d2 d3 d4) with
        | some ch => (unescapeString rest).map (fun out => ch :: out)
        | none => .error .invalidCodePointValue) ∧
    (∀ ds, ds.length < 4 → (∀ c ∈ ds, (toDigit16 c).isSome) →
      unescapeString ('\\' :: 'u' :: ds) = .error .unfinishedEscape) ∧
    (∀ pre c post, pre.length ≤ 3 → (∀ x ∈ pre, (toDigit16 x).isSome) →
      toDigit16 c = none →
      unescapeString ('\\' :: 'u' :: (pre ++ c :: post)) = .error .invalidHexValue) ∧
    unescapeString "\\u0041\\u0042".toList = .ok "AB".toList ∧
    unescapeString "\\uD800".toList = .error .invalidCodePointValue ∧
    unescapeString "\\uZZZZ".toList = .error .invalidHexValue ∧
    unescapeString "\\u12".toList = .error .unfinishedEscape := by
  refine ⟨?_, ?_, ?_, rfl, rfl, rfl, rfl⟩
  · intro c1 c2 c3 c4 d1 d2 d3 d4 rest h1 h2 h3 h4
    simp only [unescapeString, h1, h2, h3, h4]
    cases hf : fromU32 (hexSum d1 d2 d3 d4) with
    | none => rfl
    | some ch => cases h : unescapeString rest <;> simp [h, Except.map]
  · intro ds hlen hall
    match ds with
    | [] => rfl
    | [c1] =>
      obtain ⟨d1, hd1⟩ := Option.isSome_iff_exists.mp (hall c1 (by simp))
      simp [unescapeString, hd1]
    | [c1, c2] =>
      obtain ⟨d1, hd1⟩ := Option.isSome_iff_exists.mp (hall c1 (by simp))
      obtain ⟨d2, hd2⟩ := Option.isSome_iff_exists.mp (hall c2 (by simp))
      simp [unescapeString, hd1, hd2]
    | [c1, c2, c3] =>
      obtain ⟨d1, hd1⟩ := Option.isSome_iff_exists.mp (hall c1 (by simp))
      obtain ⟨d2, hd2⟩ := Option.isSome_iff_exists.mp (hall c2 (by simp))
      obtain ⟨d3, hd3⟩ := Option.isSome_iff_exists.mp (hall c3 (by simp))
      simp [unescapeString, hd1, hd2, hd3]
    | c1 :: c2 :: c3 :: c4 :: _ => (simp only [List.length_cons] at hlen; omega)
  · intro pre c post hlen hall hc
    match pre with
    | [] => simp [unescapeString, hc]
    | [x1] =>
      obtain ⟨d1, hd1⟩ := Option.isSome_iff_exists.mp (hall x1 (by simp))
      simp [unescapeString, hd1, hc]
    | [x1, x2] =>
      obtain ⟨d1, hd1⟩ := Option.isSome_iff_exists.mp (hall x1 (by simp))
      obtain ⟨d2, hd2⟩ := Option.isSome_iff_exists.mp (hall x2 (by simp))
      simp [unescapeString, hd1, hd2, hc]
    | [x1, x2, x3] =>
      obtain ⟨d1, hd1⟩ := Option.isSome_iff_exists.mp (hall x1 (by simp))
      obtain ⟨d2, hd2⟩ := Option.isSome_iff_exists.mp (hall x2 (by simp))
      obtain ⟨d3, hd3⟩ := Option.isSome_iff_exists.mp (hall x3 (by simp))
      simp [unescapeString, hd1, hd2, hd3, hc]
    | x1 :: x2 :: x3 :: x4 :: _ => (simp only [List.length_cons] at hlen; omega)

/-- C8, witness: the theorem's components applied at concrete inputs — the
four-hex-digit component at `A` (value 65, the letter `A`), the
ends-early component at `\u12`, and the bad-hex component at `\u1Z2`. -/
theorem C8_unicode_escape_witness :
    unescapeString ['\\', 'u', '0', '0', '4', '1'] = .ok ['A'] ∧
    unescapeString ['\\', 'u', '1', '2'] = .error .unfinishedEscape ∧
    unescapeString ['\\', 'u', '1', 'Z', '2'] = .error .invalidHexValue := by
  refine ⟨?_, ?_, ?_⟩
  · rw [C8_unicode_escape.1 '0' '0' '4' '1' 0 0 4 1 [] rfl rfl rfl rfl]
    rfl
  · exact C8_unicode_escape.2.1 ['1', '2'] (by decide) (by decide)
  · exact C8_unicode_escape.2.2.1 ['1'] 'Z' ['2'] (by decide) (by decide) rfl

/-- Shape of the inputs of claim C5: the characters of a numeral matching
`-?digits(.digits)?`, assembled from a sign flag, integer digits and optional
fraction digits. -/
def numeralChars (neg : Bool) (int : List Char) (frac : Option (List Char)) : List Char :=
  (if neg then ['-'] else []) ++ int ++
    (match frac with
     | none => []
     | some fs => '.' :: fs)

/-- The exact mathematical value of that numeral: `±(int + frac/10^|frac|)`. -/
def numeralVal (neg : Bool) (int : List Char) (frac : Option (List Char)) : ℚ :=
  (if neg then -1 else 1) *
    ((digitsVal int : ℚ) + (digitsVal (frac.getD []) : ℚ) / (10 : ℚ) ^ (frac.getD []).length)

theorem decimalVal_eq (neg : Bool) (int frac : List Char) :
    decimalVal neg int frac =
      (if neg then -1 else 1) *
        ((digitsVal int : ℚ) + (digitsVal frac : ℚ) / (10 : ℚ) ^ frac.length) := by
  unfold decimalVal
  rw [Rat.mkRat_eq_div]
  have h10 : ((10 : ℚ)) ^ frac.length ≠ 0 := pow_ne_zero _ (by norm_num)
  cases neg <;> push_cast <;> field_simp <;> ring

theorem char_ne_of_digit (c d : Char) (h : isDigitChar c = Bool.true)
    (hd : isDigitChar d = Bool.false) : c ≠ d := by
  intro he
  rw [he] at h
  rw [h] at hd
  exact Bool.noConfusion hd

theorem digit_not_ws (c : Char) (h : isDigitChar c = Bool.true) :
    isAsciiWhitespace c = Bool.false := by
  have h1 := char_ne_of_digit c ' ' h rfl
  have h2 := char_ne_of_digit c '\t' h rfl
  have h3 := char_ne_of_digit c '\n' h rfl
  have h4 := char_ne_of_digit c (Char.ofNat 12) h rfl
  have h5 := char_ne_of_digit c '\r' h rfl
  simp [isAsciiWhitespace, h1, h2, h3, h4, h5]

theorem floatScan_digits (ds : List Char) :
    ∀ tail dec, (∀ c ∈ ds, isDigitChar c = Bool.true) →
      floatScan (ds ++ tail) dec = (ds ++ (floatScan tail dec).1, (floatScan tail dec).2) := by
  induction ds with
  | nil => intro tail dec _; simp
  | cons c ds ih =>
    intro tail dec h
    have hc := h c (List.mem_cons_self _ _)
    rw [List.cons_append, floatScan, if_pos (by simp [hc])]
    rw [ih tail dec (fun x hx => h x (List.mem_cons_of_mem _ hx))]
    exact rfl

theorem floatScan_numeral (neg : Bool) (int : List Char) (frac : Option (List Char))
    (hint : ∀ c ∈ int, isDigitChar c = Bool.true)
    (hfrac : ∀ fs, frac = some fs → ∀ c ∈ fs, isDigitChar c = Bool.true) :
    floatScan (numeralChars neg int frac) Bool.false = (numeralChars neg int frac, []) := by
  have hcore : ∀ dot, (dot = [] ∨ ∃ fs, dot = '.' :: fs ∧ ∀ c ∈ fs, isDigitChar c = Bool.true) →
      floatScan (int ++ dot) Bool.false = (int ++ dot, []) := by
    intro dot hdot
    rcases hdot with rfl | ⟨fs, rfl, hfs⟩
    · simpa [floatScan] using floatScan_digits int [] Bool.false hint
    · have hfsscan : floatScan fs Bool.true = (fs, []) := by
        simpa [floatScan] using floatScan_digits fs [] Bool.true hfs
      have hdotscan : floatScan ('.' :: fs) Bool.false = ('.' :: fs, []) := by
        rw [floatScan, if_neg (by decide), if_pos (by decide), hfsscan]
      rw [floatScan_digits int ('.' :: fs) Bool.false hint, hdotscan]
  cases frac with
  | none =>
    cases neg with
    | false => simpa [numeralChars] using hcore [] (Or.inl rfl)
    | true =>
      show floatScan ('-' :: (int ++ [])) Bool.false = _
      rw [floatScan, if_pos (by decide), hcore [] (Or.inl rfl)]
      simp [numeralChars]
  | some fs =>
    have h := hcore ('.' :: fs) (Or.inr ⟨fs, rfl, hfrac fs rfl⟩)
    cases neg with
    | false => simpa [numeralChars] using h
    | true =>
      show floatScan ('-' :: (int ++ ('.' :: fs))) Bool.false = _
      rw [floatScan, if_pos (by decide), h]
      simp [numeralChars]

theorem takeWhile_dropWhile_append {p : Char → Bool} :
    ∀ l1 l2, (∀ c ∈ l1, p c = Bool.true) → (∀ c cs, l2 = c :: cs → p c = Bool.false) →
      (l1 ++ l2).takeWhile p = l1 ∧ (l1 ++ l2).dropWhile p = l2 := by
  intro l1
  induction l1 with
  | nil =>
    intro l2 _ h2
    cases l2 with
    | nil => simp
    | cons c cs =>
      have hc := h2 c cs rfl
      simp [List.takeWhile_cons, List.dropWhile_cons, hc]
  | cons c l1 ih =>
    intro l2 h1 h2
    have hc := h1 c (List.mem_cons_self _ _)
    obtain ⟨iht, ihd⟩ := ih l2 (fun x hx => h1 x (List.mem_cons_of_mem _ hx)) h2
    constructor
    · rw [List.cons_append, List.takeWhile_cons, hc]
      simp [iht]
    · rw [List.cons_append, List.dropWhile_cons, hc]
      simp [ihd]

theorem parseFloat_numeral (neg : Bool) (int : List Char) (frac : Option (List Char))
    (hne : int ≠ []) (hint : ∀ c ∈ int, isDigitChar c = Bool.true)
    (hfrac : ∀ fs, frac = some fs → ∀ c ∈ fs, isDigitChar c = Bool.true) :
    parseFloat (numeralChars neg int frac) = .ok (numeralVal neg int frac) := by
  obtain ⟨c0, int', rfl⟩ : ∃ c0 int', int = c0 :: int' := by
    cases int with
    | nil => exact absurd rfl hne
    | cons a b => exact ⟨a, b, rfl⟩
  have hd0 := hint c0 (List.mem_cons_self _ _)
  have hsign : c0 ≠ '-' := char_ne_of_digit c0 '-' hd0 rfl
  have hplus : c0 ≠ '+' := char_ne_of_digit c0 '+' hd0 rfl
  cases frac with
  | none =>
    obtain ⟨htake, hdrop⟩ :=
      takeWhile_dropWhile_append (c0 :: int') [] hint (by intro c cs h; simp at h)
    simp only [List.append_nil] at htake hdrop
    cases neg with
    | true =>
      show parseFloat ('-' :: ((c0 :: int') ++ [])) = _
      simp [parseFloat, parseFloatRest, htake, hdrop, decimalVal_eq, numeralVal]
    | false =>
      show parseFloat ((c0 :: int') ++ []) = _
      simp [parseFloat, parseFloatRest, htake, hdrop, hsign, hplus, decimalVal_eq, numeralVal]
  | some fs =>
    have hfs := hfrac fs rfl
    obtain ⟨htake, hdrop⟩ :=
      takeWhile_dropWhile_append (c0 :: int') ('.' :: fs) hint
        (by intro c cs h; injection h with h1 _; rw [← h1]; rfl)
    have hall : fs.all isDigitChar = Bool.true := List.all_eq_true.mpr hfs
    simp only [List.cons_append, List.takeWhile_cons, List.dropWhile_cons, hd0, if_true,
      List.cons.injEq, true_and] at htake hdrop
    cases neg with
    | true =>
      show parseFloat ('-' :: ((c0 :: int') ++ ('.' :: fs))) = _
      simp [parseFloat, parseFloatRest, htake, hdrop, hall, hfs, hd0, decimalVal_eq, numeralVal]
    | false =>
      show parseFloat ((c0 :: int') ++ ('.' :: fs)) = _
      simp [parseFloat, parseFloatRest, htake, hdrop, hall, hfs, hd0, hsign, hplus,
        decimalVal_eq, numeralVal]

theorem createToken_float (c : Char) (cs : List Char)
    (h : isDigitChar c = Bool.true ∨ c = '-') :
    createToken (c :: cs) = tokenizeFloat (c :: cs) := by
  rcases h with h | rfl
  · have hws := digit_not_ws c h
    have h1 := char_ne_of_digit c '{' h rfl
    have h2 := char_ne_of_digit c '}' h rfl
    have h3 := char_ne_of_digit c '[' h rfl
    have h4 := char_ne_of_digit c ']' h rfl
    have h5 := char_ne_of_digit c ',' h rfl
    have h6 := char_ne_of_digit c ':' h rfl
    have h7 := char_ne_of_digit c 'n' h rfl
    have h8 := char_ne_of_digit c 't' h rfl
    have h9 := char_ne_of_digit c 'f' h rfl
    have h10 := char_ne_of_digit c '"' h rfl
    simp [createToken, skipWhitespace, hws, h, h1, h2, h3, h4, h5, h6, h7, h8, h9, h10]
  · rfl

theorem tokenize_numeral (neg : Bool) (int : List Char) (frac : Option (List Char))
    (hne : int ≠ []) (hint : ∀ c ∈ int, isDigitChar c = Bool.true)
    (hfrac : ∀ fs, frac = some fs → ∀ c ∈ fs, isDigitChar c = Bool.true) :
    tokenize (numeralChars neg int frac) =
      .ok [Token.number (numeralVal neg int frac)] := by
  obtain ⟨c0, cs0, hcons, hfit⟩ :
      ∃ c0 cs0, numeralChars neg int frac = c0 :: cs0 ∧
        (isDigitChar c0 = Bool.true ∨ c0 = '-') := by
    cases neg with
    | true => exact ⟨'-', _, rfl, Or.inr rfl⟩
    | false =>
      cases int with
      | nil => exact absurd rfl hne
      | cons a b =>
        exact ⟨a, _, rfl, Or.inl (hint a (List.mem_cons_self _ _))⟩
  have hct : createToken (c0 :: cs0) =
      .ok (Token.number (numeralVal neg int frac), []) := by
    rw [createToken_float c0 cs0 (by exact hfit), ← hcons]
    rw [tokenizeFloat]
    simp only [floatScan_numeral neg int frac hint hfrac,
      parseFloat_numeral neg int frac hne hint hfrac]
  have hstep : ∀ fuel tokens,
      tokenizeLoop (fuel + 1) (c0 :: cs0) tokens =
        match createToken (c0 :: cs0) with
        | .ok (t, rest) => tokenizeLoop fuel rest (tokens ++ [t])
        | .err e => .err e
        | .panic => .panic
        | .outOfFuel => .outOfFuel := fun _ _ => rfl
  rw [tokenize, hcons, hstep, hct]
  exact rfl

/-- C5: for every input that is exactly a finite decimal numeral matching
`-?digits(.digits)?` — assembled by `numeralChars` from a sign, a nonempty
list of integer digits and an optional nonempty list of fraction digits —
`tokenize` produces the single token `Number v` where `v` is the numeral's
exact decimal value (`numeralVal`, with the `f64` payload modelled as an
exact rational), `parse_tokens` turns that token into `Value::Number v`
consuming exactly one token, and the composed `parse` yields
`Value::Number v`. -/
theorem C5_numeral_tokenizes_and_parses :
    ∀ (neg : Bool) (int : List Char) (frac : Option (List Char)),
      int ≠ [] → (∀ c ∈ int, isDigitChar c = Bool.true) →
      (∀ fs, frac = some fs → fs ≠ [] ∧ ∀ c ∈ fs, isDigitChar c = Bool.true) →
      tokenize (numeralChars neg int frac) =
        .ok [Token.number (numeralVal neg int frac)] ∧
      parseTokens [Token.number (numeralVal neg int frac)] 37 0 =
        .ok (Value.number (numeralVal neg int frac), 1) ∧
      parse (numeralChars neg int frac) = .ok (Value.number (numeralVal neg int frac)) := by
  intro neg int frac hne hint hfrac
  have hfrac' : ∀ fs, frac = some fs → ∀ c ∈ fs, isDigitChar c = Bool.true :=
    fun fs hfs => (hfrac fs hfs).2
  have htok := tokenize_numeral neg int frac hne hint hfrac'
  refine ⟨htok, rfl, ?_⟩
  rw [parse, htok]
  exact rfl

/-- C5, witness: the instance `"-123.5"`, whose value is the exact rational
`-247/2`. -/
theorem C5_numeral_tokenizes_and_parses_witness :
    tokenize (numeralChars Bool.true ['1', '2', '3'] (some ['5'])) =
      .ok [Token.number (numeralVal Bool.true ['1', '2', '3'] (some ['5']))] ∧
    parse (numeralChars Bool.true ['1', '2', '3'] (some ['5'])) =
      .ok (Value.number (numeralVal Bool.true ['1', '2', '3'] (some ['5']))) ∧
    numeralChars Bool.true ['1', '2', '3'] (some ['5']) = "-123.5".toList ∧
    numeralVal Bool.true ['1', '2', '3'] (some ['5']) = -247 / 2 := by
  have h := C5_numeral_tokenizes_and_parses Bool.true ['1', '2', '3'] (some ['5'])
    (by decide) (by decide)
    (fun fs hfs => by injection hfs with hfs; rw [← hfs]; exact ⟨by decide, by decide⟩)
  refine ⟨h.1, h.2.2, rfl, ?_⟩
  have h1 : digitsVal ['1', '2', '3'] = 123 := rfl
  have h2 : digitsVal ['5'] = 5 := rfl
  simp only [numeralVal, Option.getD, h1, h2, List.length_singleton]
  norm_num

end Json
